import Mathlib

/-!
# gbaplusplus: BIOS call wrappers (`include/gba/bios.hpp`) and `mat3x2`

A shallow embedding of the register encodings built by `gba::bios`, of the calls it
issues to the `swi::` trampolines, and of the affine matrices of
`include/gba/mat3x2.hpp`.

Conventions of the embedding.

* Machine integers are natural numbers (or integers for signed types) with an
  explicit reduction modulo `2 ^ w`.
* The target is the Game Boy Advance (ARM7TDMI, little-endian, 32-bit pointers,
  GCC following the ARM procedure call standard).  Bit-fields are allocated in
  declaration order from the least significant bit of their storage unit; a
  bit-field that would cross a boundary of a storage unit of its declared type
  starts at the next such boundary.  Unnamed bit-fields only take up room, and
  their bits are zero in an object built by aggregate initialisation.
* `std::memcpy` of an object into `uint_sized_type<sizeof(object)>::type` is the
  little-endian reading of the object's bytes.
* A call to a `swi::` trampoline is recorded as an event in a trace.
* A class template over an element type is a definition over a type `T`; the
  theorems about it hold over every commutative ring, the integers and the
  integers modulo `2 ^ w` among them.
-/

namespace gba

/-! ## Bit-field allocation and object representation -/

/-- One bit-field member declaration: `unit` is the width in bits of the declared
type (`uint32` is 32, `bool` is 8) and `width` the width after the colon. -/
structure BitField where
  unit : Nat
  width : Nat
deriving DecidableEq, Repr

/-- The bit offset given to a bit-field when `off` is the first free bit: `off`
itself unless the field would straddle a storage unit of its declared type. -/
def BitField.place (d : BitField) (off : Nat) : Nat :=
  if (off + d.width - 1) / d.unit = off / d.unit then off
  else (off / d.unit + 1) * d.unit

/-- Bit offsets of the members of a struct, in declaration order. -/
def bitOffsets : Nat → List BitField → List Nat
  | _, [] => []
  | off, d :: ds => d.place off :: bitOffsets (d.place off + d.width) ds

/-- The first free bit after all members are allocated. -/
def bitEnd : Nat → List BitField → Nat
  | off, [] => off
  | off, d :: ds => bitEnd (d.place off + d.width) ds

/-- Alignment of the struct in bits: the widest declared type among its members. -/
def bitAlign (ds : List BitField) : Nat :=
  ds.foldl (fun a d => max a d.unit) 8

/-- The value of `sizeof` in bytes for a struct made of the bit-fields `ds`. -/
def sizeofBits (ds : List BitField) : Nat :=
  ((bitEnd 0 ds + bitAlign ds - 1) / bitAlign ds) * bitAlign ds / 8

/-- Storing `v` in a bit-field of width `w` at offset `off`: the value is reduced
modulo `2 ^ w` and shifted into place. -/
def storeField (w off v : Nat) : Nat :=
  (v % 2 ^ w) * 2 ^ off

/-- Reading the bit-field of width `w` at offset `off` out of the storage `c`. -/
def loadField (w off c : Nat) : Nat :=
  c / 2 ^ off % 2 ^ w

/-- The storage of a struct of bit-fields: every member value stored at its
offset.  `vs` lists the member values in declaration order (0 for unnamed). -/
def packFields : Nat → List BitField → List Nat → Nat
  | off, d :: ds, v :: vs =>
      storeField d.width (d.place off) v + packFields (d.place off + d.width) ds vs
  | _, _, _ => 0

/-- The object representation of a `size`-byte object whose storage is `v`:
its bytes from the lowest address upwards (little-endian). -/
def objectBytes (size v : Nat) : List Nat :=
  (List.range size).map (fun i => v / 256 ^ i % 256)

/-- The unsigned integer read from little-endian bytes: what `std::memcpy` into a
`uint_sized_type<N>::type` variable leaves in it. -/
def uintOfBytes : List Nat → Nat
  | [] => 0
  | b :: bs => b % 256 + 256 * uintOfBytes bs

/-- The `std::memcpy( &a, &x, sizeof( x ) )` idiom of `bios.hpp`: the unsigned
integer of `size` bytes carrying the bytes of an object with storage `v`. -/
def memcpyToUint (size v : Nat) : Nat :=
  uintOfBytes (objectBytes size v)

namespace bios
namespace detail

/-! ## `detail::length_mode` -/

/-- The three named members of `detail::length_mode`. -/
structure length_mode where
  word_count : Nat
  fixed_source_address : Bool
  datasize : Bool
deriving DecidableEq, Repr

/-- The member declarations of `length_mode`, unnamed ones included:
`uint32 word_count : 21, : 3; bool fixed_source_address : 1, : 1, datasize : 1;` -/
def length_mode.decls : List BitField :=
  [⟨32, 21⟩, ⟨32, 3⟩, ⟨8, 1⟩, ⟨8, 1⟩, ⟨8, 1⟩]

/-- Aggregate initialisation `{ wordcount, fixed, size }` of a `length_mode` from a
`uint32` word count: the 21-bit member keeps the low 21 bits. -/
def length_mode.init (wordcount : Nat) (fixed size : Bool) : length_mode :=
  ⟨wordcount % 2 ^ 32 % 2 ^ 21, fixed, size⟩

/-- Member values in declaration order, the unnamed members being zero. -/
def length_mode.values (m : length_mode) : List Nat :=
  [m.word_count, 0, m.fixed_source_address.toNat, 0, m.datasize.toNat]

/-- The storage of a `length_mode` object. -/
def length_mode.storage (m : length_mode) : Nat :=
  packFields 0 length_mode.decls m.values

/-- The register word `c` that `invoke` obtains with
`std::memcpy( &c, &m_setting, sizeof( m_setting ) )`. -/
def length_mode.toRegister (m : length_mode) : Nat :=
  memcpyToUint (sizeofBits length_mode.decls) m.storage

/-- The offset of member number `i` of `length_mode`. -/
def length_mode.offset (i : Nat) : Nat :=
  (bitOffsets 0 length_mode.decls).getD i 0

/-- Reading the three named members of the `length_mode` object whose bytes are
those of the register word `c` (the copy of `toRegister` in the other direction). -/
def length_mode.ofRegister (c : Nat) : length_mode :=
  ⟨loadField 21 (length_mode.offset 0) c,
   decide (loadField 1 (length_mode.offset 2) c = 1),
   decide (loadField 1 (length_mode.offset 4) c = 1)⟩

/-! ## Trampoline calls and the transfer builders -/

end detail

/-- One call of a `swi::` trampoline with the register words passed to it. -/
inductive SwiCall where
  | cpu_set (a b c : Nat)
  | cpu_fast_set (a b c : Nat)
  | register_ram_reset (a : Nat)
deriving DecidableEq, Repr

/-- The value of `sizeof( src )` for a pointer or a `uintptr` on the target. -/
def sizeofPointer : Nat := 4

namespace detail

/-- The class `detail::cpu_set_shared`: its only data member is `m_setting`. -/
structure cpu_set_shared where
  m_setting : length_mode
deriving DecidableEq, Repr

/-- The class `detail::cpu_fast_set_shared`, derived from `cpu_set_shared`. -/
structure cpu_fast_set_shared extends cpu_set_shared
deriving DecidableEq, Repr

/-- The member `cpu_set_shared::invoke( const Source * src, Dest * dst )`.  `src` and
`dst` are the addresses held by the two pointers, `tr` the calls issued so far; the
result is `*this` and the extended trace. -/
def cpu_set_shared.invoke (self : cpu_set_shared) (src dst : Nat) (tr : List SwiCall) :
    cpu_set_shared × List SwiCall :=
  let a := memcpyToUint sizeofPointer src
  let b := memcpyToUint sizeofPointer dst
  let c := memcpyToUint (sizeofBits length_mode.decls) self.m_setting.storage
  (self, tr ++ [SwiCall.cpu_set a b c])

/-- The member `cpu_set_shared::invoke( const Source * src, uintptr dst )`. -/
def cpu_set_shared.invoke_uintptr (self : cpu_set_shared) (src dst : Nat)
    (tr : List SwiCall) : cpu_set_shared × List SwiCall :=
  let a := memcpyToUint sizeofPointer src
  let b := memcpyToUint sizeofPointer (dst % 2 ^ 32)
  let c := memcpyToUint (sizeofBits length_mode.decls) self.m_setting.storage
  (self, tr ++ [SwiCall.cpu_set a b c])

/-- The member `cpu_set_shared::operator()( const Source * src, Dest * dst )`. -/
def cpu_set_shared.call (self : cpu_set_shared) (src dst : Nat) (tr : List SwiCall) :
    cpu_set_shared × List SwiCall :=
  self.invoke src dst tr

/-- The member `cpu_set_shared::operator()( const Source * src, uintptr dst )`. -/
def cpu_set_shared.call_uintptr (self : cpu_set_shared) (src dst : Nat)
    (tr : List SwiCall) : cpu_set_shared × List SwiCall :=
  self.invoke_uintptr src dst tr

/-- The member `cpu_fast_set_shared::invoke( const Source * src, Dest * dst )`. -/
def cpu_fast_set_shared.invoke (self : cpu_fast_set_shared) (src dst : Nat)
    (tr : List SwiCall) : cpu_fast_set_shared × List SwiCall :=
  let a := memcpyToUint sizeofPointer src
  let b := memcpyToUint sizeofPointer dst
  let c := memcpyToUint (sizeofBits length_mode.decls) self.m_setting.storage
  (self, tr ++ [SwiCall.cpu_fast_set a b c])

/-- The member `cpu_fast_set_shared::invoke( const Source * src, uintptr dst )`. -/
def cpu_fast_set_shared.invoke_uintptr (self : cpu_fast_set_shared) (src dst : Nat)
    (tr : List SwiCall) : cpu_fast_set_shared × List SwiCall :=
  let a := memcpyToUint sizeofPointer src
  let b := memcpyToUint sizeofPointer (dst % 2 ^ 32)
  let c := memcpyToUint (sizeofBits length_mode.decls) self.m_setting.storage
  (self, tr ++ [SwiCall.cpu_fast_set a b c])

/-- The member `cpu_fast_set_shared::operator()( const Source * src, Dest * dst )`. -/
def cpu_fast_set_shared.call (self : cpu_fast_set_shared) (src dst : Nat)
    (tr : List SwiCall) : cpu_fast_set_shared × List SwiCall :=
  self.invoke src dst tr

/-- The member `cpu_fast_set_shared::operator()( const Source * src, uintptr dst )`. -/
def cpu_fast_set_shared.call_uintptr (self : cpu_fast_set_shared) (src dst : Nat)
    (tr : List SwiCall) : cpu_fast_set_shared × List SwiCall :=
  self.invoke_uintptr src dst tr

end detail

/-! ## The six presets -/

/-- The constructor `cpu_copy16( uint32 wordcount )`. -/
def cpu_copy16 (wordcount : Nat) : detail.cpu_set_shared :=
  ⟨detail.length_mode.init wordcount false false⟩

/-- The constructor `cpu_copy32( uint32 wordcount )`. -/
def cpu_copy32 (wordcount : Nat) : detail.cpu_set_shared :=
  ⟨detail.length_mode.init wordcount false true⟩

/-- The constructor `cpu_copy32x8( uint32 wordcount )`. -/
def cpu_copy32x8 (wordcount : Nat) : detail.cpu_fast_set_shared :=
  ⟨⟨detail.length_mode.init wordcount false true⟩⟩

/-- The constructor `cpu_set16( uint32 wordcount )`. -/
def cpu_set16 (wordcount : Nat) : detail.cpu_set_shared :=
  ⟨detail.length_mode.init wordcount true false⟩

/-- The constructor `cpu_set32( uint32 wordcount )`. -/
def cpu_set32 (wordcount : Nat) : detail.cpu_set_shared :=
  ⟨detail.length_mode.init wordcount true true⟩

/-- The constructor `cpu_set32x8( uint32 wordcount )`. -/
def cpu_set32x8 (wordcount : Nat) : detail.cpu_fast_set_shared :=
  ⟨⟨detail.length_mode.init wordcount true true⟩⟩

/-! ## `reset_flags` and `register_ram_reset` -/

/-- The struct `reset_flags`: eight `bool` bit-fields of width 1. -/
structure reset_flags where
  ewram : Bool
  iwram : Bool
  palette : Bool
  vram : Bool
  oam : Bool
  serial_io : Bool
  sound : Bool
  registers : Bool
deriving DecidableEq, Repr

/-- The member declarations of `reset_flags`: `bool ewram : 1, ..., registers : 1;` -/
def reset_flags.decls : List BitField :=
  [⟨8, 1⟩, ⟨8, 1⟩, ⟨8, 1⟩, ⟨8, 1⟩, ⟨8, 1⟩, ⟨8, 1⟩, ⟨8, 1⟩, ⟨8, 1⟩]

/-- Member values of a `reset_flags` in declaration order. -/
def reset_flags.values (f : reset_flags) : List Nat :=
  [f.ewram.toNat, f.iwram.toNat, f.palette.toNat, f.vram.toNat, f.oam.toNat,
   f.serial_io.toNat, f.sound.toNat, f.registers.toNat]

/-- The storage of a `reset_flags` object. -/
def reset_flags.storage (f : reset_flags) : Nat :=
  packFields 0 reset_flags.decls f.values

/-- The unsigned integer `a` that `register_ram_reset` obtains with
`std::memcpy( &a, &flags, sizeof( flags ) )`. -/
def reset_flags.toRegister (f : reset_flags) : Nat :=
  memcpyToUint (sizeofBits reset_flags.decls) f.storage

/-- The function `register_ram_reset( reset_flags flags )`: one trampoline call with
the flags copied into an unsigned integer of `sizeof( flags )` bytes. -/
def register_ram_reset (flags : reset_flags) (tr : List SwiCall) : List SwiCall :=
  let a := memcpyToUint (sizeofBits reset_flags.decls) flags.storage
  tr ++ [SwiCall.register_ram_reset a]

/-! ## Math wrappers -/

/-- An integral type of C++: its width in bits and whether it is signed. -/
structure IntType where
  bits : Nat
  signed : Bool
deriving DecidableEq, Repr

/-- The values an integral type can hold. -/
def IntType.holds (T : IntType) (x : Int) : Prop :=
  if T.signed then -(2 ^ (T.bits - 1)) ≤ x ∧ x < 2 ^ (T.bits - 1)
  else 0 ≤ x ∧ x < 2 ^ T.bits

instance (T : IntType) (x : Int) : Decidable (T.holds x) := by
  unfold IntType.holds
  split <;> exact inferInstance

/-- Conversion of an integer value to the integral type `T`: the value of `T`
congruent to it modulo `2 ^ bits`. -/
def IntType.convert (T : IntType) (v : Int) : Int :=
  if T.signed then (v + 2 ^ (T.bits - 1)) % 2 ^ T.bits - 2 ^ (T.bits - 1)
  else v % 2 ^ T.bits

/-- The type `int32` of `gba/int.hpp`. -/
def int32 : IntType := ⟨32, true⟩

/-- The type `uint32` of `gba/int.hpp`. -/
def uint32 : IntType := ⟨32, false⟩

/-- The conversion `static_cast<uint32>( x )`. -/
def static_cast_uint32 (x : Int) : Nat :=
  (uint32.convert x).toNat

/-- The register word carrying an `int32` argument (two's complement). -/
def wordOfInt32 (x : Int) : Nat :=
  (x % 2 ^ 32).toNat

namespace swi

/-- Modelled from the spec: the trampoline `swi::sqrt` of `gba/bios_asm.hpp`, which
is not part of the sources at hand.  The firmware routine returns the integer
square root (rounded down) of its 32-bit unsigned argument. -/
def sqrt (u : Nat) : Nat :=
  Nat.sqrt (u % 2 ^ 32)

/-- The three result registers of the division trampolines. -/
structure div_result where
  r0 : Nat
  r1 : Nat
  r2 : Nat
deriving DecidableEq, Repr

/-- Modelled from the spec: the trampoline `swi::div` of `gba/bios_asm.hpp`, which is
not part of the sources at hand.  The firmware routine leaves the quotient of its
first argument by its second (rounded toward zero) in `r0`, the remainder (with the
sign of the numerator) in `r1` and the absolute value of the quotient in `r2`. -/
def div (a b : Int) : div_result :=
  ⟨wordOfInt32 (Int.tdiv a b), wordOfInt32 (Int.tmod a b), (Int.tdiv a b).natAbs % 2 ^ 32⟩

/-- Modelled from the spec: the trampoline `swi::div_arm` of `gba/bios_asm.hpp`, which
is not part of the sources at hand.  The firmware routine divides its second
register argument by its first and returns the same three results as `swi::div`. -/
def div_arm (a b : Int) : div_result :=
  ⟨wordOfInt32 (Int.tdiv b a), wordOfInt32 (Int.tmod b a), (Int.tdiv b a).natAbs % 2 ^ 32⟩

end swi

/-- The function `bios::div( int32 a, int32 b )`: the three result registers as a
tuple of `int32`, `int32` and `uint32`. -/
def div (a b : Int) : Int × Int × Nat :=
  let result := swi.div a b
  (int32.convert result.r0, int32.convert result.r1, (uint32.convert result.r2).toNat)

/-- The function `bios::div_arm( int32 a, int32 b )`. -/
def div_arm (a b : Int) : Int × Int × Nat :=
  let result := swi.div_arm a b
  (int32.convert result.r0, int32.convert result.r1, (uint32.convert result.r2).toNat)

/-- The function template `bios::sqrt( T x )` at the integral type `T`: the result of
the trampoline for `static_cast<uint32>( x )`, converted to the return type `T`. -/
def sqrt (T : IntType) (x : Int) : Int :=
  T.convert (swi.sqrt (static_cast_uint32 x))

end bios

/-! ## `mat3x2` (`include/gba/mat3x2.hpp`) -/

/-- Modelled from the spec: the struct `vec2<T>` of `gba/vec2.hpp`, which is not part
of the sources at hand.  `mat3x2.hpp` reads its members `x` and `y` and builds it
from two components. -/
structure vec2 (T : Type) where
  x : T
  y : T
deriving DecidableEq, Repr

/-- Modelled from the spec: the struct `vec3<T>` of `gba/vec3.hpp`, which is not part
of the sources at hand.  `mat3x2.hpp` reads its members `x`, `y` and `z`. -/
structure vec3 (T : Type) where
  x : T
  y : T
  z : T
deriving DecidableEq, Repr

/-- Modelled from the spec: the value-initialised `vec2<T>()` that `mat3x2()` stores in
`xy`, with both components zero. -/
def vec2.zero {T : Type} [Zero T] : vec2 T :=
  ⟨0, 0⟩

/-- Modelled from the spec: `operator==` of `vec2`, the comparison of both components. -/
def vec2.eq {T : Type} [DecidableEq T] (a b : vec2 T) : Bool :=
  decide (a.x = b.x) && decide (a.y = b.y)

/-- The struct `mat3x2<T, T>`: both template arguments are the one element type `T`
(`VType` defaults to `MType`). -/
structure mat3x2 (T : Type) where
  ab : vec2 T
  cd : vec2 T
  xy : vec2 T
deriving DecidableEq, Repr

/-- The default constructor `mat3x2()`: `ab( { 1, 0 } ), cd( { 0, 1 } ), xy()`. -/
def mat3x2.init {T : Type} [Zero T] [One T] : mat3x2 T :=
  ⟨⟨1, 0⟩, ⟨0, 1⟩, vec2.zero⟩

/-- The constructor `mat3x2( a, b, c, d, x, y )`:
`ab( { a, b } ), cd( { c, d } ), xy( { x, y } )`. -/
def mat3x2.of6 {T : Type} (a b c d x y : T) : mat3x2 T :=
  ⟨⟨a, b⟩, ⟨c, d⟩, ⟨x, y⟩⟩

/-- The product `operator *( const mat3x2& m, const vec3& v )`. -/
def mat3x2.mul_vec3 {T : Type} [Add T] [Mul T] (m : mat3x2 T) (v : vec3 T) : vec2 T :=
  ⟨m.ab.x * v.x + m.cd.x * v.y + m.xy.x * v.z,
   m.ab.y * v.x + m.cd.y * v.y + m.xy.y * v.z⟩

/-- The product `operator *( const mat3x2& m1, const mat3x2& m2 )`. -/
def mat3x2.mul {T : Type} [Add T] [Mul T] (m1 m2 : mat3x2 T) : mat3x2 T :=
  mat3x2.of6
    (m1.ab.x * m2.ab.x + m1.cd.x * m2.ab.y)
    (m1.ab.y * m2.ab.x + m1.cd.y * m2.ab.y)
    (m1.ab.x * m2.cd.x + m1.cd.x * m2.cd.y)
    (m1.ab.y * m2.cd.x + m1.cd.y * m2.cd.y)
    (m1.ab.x * m2.xy.x + m1.cd.x * m2.xy.y + m1.xy.x)
    (m1.ab.y * m2.xy.x + m1.cd.y * m2.xy.y + m1.xy.y)

/-- The comparison `operator ==( const mat3x2& m1, const mat3x2& m2 )`:
`m1.ab == m2.ab && m1.cd == m2.cd && m1.xy == m2.xy`. -/
def mat3x2.eq {T : Type} [DecidableEq T] (m1 m2 : mat3x2 T) : Bool :=
  m1.ab.eq m2.ab && m1.cd.eq m2.cd && m1.xy.eq m2.xy

/-! ## Facts about the representation -/

theorem memcpyToUint_four (v : Nat) (h : v < 2 ^ 32) : memcpyToUint 4 v = v := by
  simp only [memcpyToUint, objectBytes, List.range, List.range.loop, List.map, uintOfBytes]
  omega

theorem memcpyToUint_one (v : Nat) (h : v < 2 ^ 8) : memcpyToUint 1 v = v := by
  simp only [memcpyToUint, objectBytes, List.range, List.range.loop, List.map, uintOfBytes]
  omega

namespace bios
namespace detail

theorem length_mode.sizeof_eq : sizeofBits length_mode.decls = 4 := by decide

theorem length_mode.offsets_eq : bitOffsets 0 length_mode.decls = [0, 21, 24, 25, 26] := by
  decide

theorem length_mode.storage_eq (m : length_mode) :
    m.storage = m.word_count % 2 ^ 21 + 2 ^ 24 * m.fixed_source_address.toNat
      + 2 ^ 26 * m.datasize.toNat := by
  have h1 : BitField.place ⟨32, 21⟩ 0 = 0 := by decide
  have h2 : BitField.place ⟨32, 3⟩ (0 + 21) = 21 := by decide
  have h3 : BitField.place ⟨8, 1⟩ (21 + 3) = 24 := by decide
  have h4 : BitField.place ⟨8, 1⟩ (24 + 1) = 25 := by decide
  have h5 : BitField.place ⟨8, 1⟩ (25 + 1) = 26 := by decide
  have hf : m.fixed_source_address.toNat % 2 ^ 1 = m.fixed_source_address.toNat :=
    Nat.mod_eq_of_lt (by cases m.fixed_source_address <;> decide)
  have he : m.datasize.toNat % 2 ^ 1 = m.datasize.toNat :=
    Nat.mod_eq_of_lt (by cases m.datasize <;> decide)
  simp only [length_mode.storage, length_mode.values, length_mode.decls, packFields, storeField,
    h1, h2, h3, h4, h5, hf, he]
  omega

theorem length_mode.toRegister_eq (m : length_mode) :
    m.toRegister = m.word_count % 2 ^ 21 + 2 ^ 24 * m.fixed_source_address.toNat
      + 2 ^ 26 * m.datasize.toNat := by
  have hs := length_mode.storage_eq m
  have hlt : m.storage < 2 ^ 32 := by
    rw [hs]
    have h1 : m.word_count % 2 ^ 21 < 2 ^ 21 := Nat.mod_lt _ (by norm_num)
    have h2 : m.fixed_source_address.toNat ≤ 1 := Bool.toNat_le _
    have h3 : m.datasize.toNat ≤ 1 := Bool.toNat_le _
    omega
  rw [length_mode.toRegister, length_mode.sizeof_eq, memcpyToUint_four _ hlt, hs]

theorem length_mode.init_toRegister (n : Nat) (f e : Bool) (h : n < 2 ^ 21) :
    (length_mode.init n f e).toRegister = 2 ^ 21 * (8 * f.toNat + 32 * e.toNat) + n := by
  rw [length_mode.toRegister_eq]
  simp only [length_mode.init]
  omega

theorem length_mode.offset_zero : length_mode.offset 0 = 0 := by decide

theorem length_mode.offset_two : length_mode.offset 2 = 24 := by decide

theorem length_mode.offset_four : length_mode.offset 4 = 26 := by decide

theorem flag_bits (f e : Bool) (j : Nat) :
    (8 * f.toNat + 32 * e.toNat).testBit j = ((j == 3 && f) || (j == 5 && e)) := by
  by_cases hj : j < 6
  · interval_cases j <;> cases f <;> cases e <;> decide
  · have hlt : 8 * f.toNat + 32 * e.toNat < 2 ^ j := by
      have h1 : f.toNat ≤ 1 := Bool.toNat_le _
      have h2 : e.toNat ≤ 1 := Bool.toNat_le _
      have h3 : 2 ^ 6 ≤ 2 ^ j := Nat.pow_le_pow_right (by norm_num) (by omega)
      omega
    rw [Nat.testBit_lt_two_pow hlt]
    have h3 : (j == 3) = false := by simp; omega
    have h5 : (j == 5) = false := by simp; omega
    simp [h3, h5]

end detail

/-! ## The transfer config and its register word -/

open detail

/-- C1 as stated fails on the code: for the config with word count 1 and both flags
set, the register word is `1 + 2^24 + 2^26`; its bit 21 and its bit 23 are clear
although both flags are set, so the flags are not at bits 21 and 23. -/
theorem length_mode_flags_not_at_21_23 :
    (length_mode.init 1 true true).toRegister = 83886081 ∧
    (length_mode.init 1 true true).toRegister.testBit 21 = false ∧
    (length_mode.init 1 true true).toRegister.testBit 23 = false ∧
    ¬ (∀ (n : Nat) (f e : Bool), n < 2 ^ 21 →
        (∀ k, k ≤ 20 → (length_mode.init n f e).toRegister.testBit k = n.testBit k) ∧
        (length_mode.init n f e).toRegister.testBit 21 = f ∧
        (length_mode.init n f e).toRegister.testBit 23 = e ∧
        (length_mode.init n f e).toRegister.testBit 22 = false) := by
  have hw : (length_mode.init 1 true true).toRegister = 83886081 := by
    rw [length_mode.init_toRegister 1 true true (by norm_num)]
    rfl
  refine ⟨hw, ?_, ?_, ?_⟩
  · rw [hw]; decide
  · rw [hw]; decide
  · intro hall
    have h21 := (hall 1 true true (by norm_num)).2.1
    rw [hw] at h21
    revert h21
    decide

/-- C1 (amended): for a word count `n < 2^21` and flags `f`, `e`, the register word
of the config has bit `k` equal to bit `k` of `n` for every `k` in 0..20, bit 24
equal to the fixed-source flag, bit 26 equal to the element-size flag, and every
other bit (21, 22, 23, 25 and all bits from 27 up) zero. -/
theorem length_mode_register_layout (n : Nat) (f e : Bool) (h : n < 2 ^ 21) :
    (∀ k, k ≤ 20 → (length_mode.init n f e).toRegister.testBit k = n.testBit k) ∧
    (length_mode.init n f e).toRegister.testBit 24 = f ∧
    (length_mode.init n f e).toRegister.testBit 26 = e ∧
    (∀ k, 21 ≤ k → k ≠ 24 → k ≠ 26 →
      (length_mode.init n f e).toRegister.testBit k = false) := by
  rw [length_mode.init_toRegister n f e h]
  refine ⟨?_, ?_, ?_, ?_⟩
  · intro k hk
    rw [Nat.testBit_mul_pow_two_add _ h, if_pos (by omega)]
  · rw [Nat.testBit_mul_pow_two_add _ h, if_neg (by omega), flag_bits]
    simp
  · rw [Nat.testBit_mul_pow_two_add _ h, if_neg (by omega), flag_bits]
    simp
  · intro k hk h24 h26
    rw [Nat.testBit_mul_pow_two_add _ h, if_neg (by omega), flag_bits]
    have h3 : (k - 21 == 3) = false := by simp; omega
    have h5 : (k - 21 == 5) = false := by simp; omega
    simp [h3, h5]

/-- Witness for C1 (amended) at word count 10 with the fixed-source flag set. -/
theorem length_mode_register_layout_witness :
    (10 : Nat) < 2 ^ 21 ∧
    (∀ k, k ≤ 20 → (length_mode.init 10 true false).toRegister.testBit k = (10 : Nat).testBit k) ∧
    (length_mode.init 10 true false).toRegister.testBit 24 = true ∧
    (length_mode.init 10 true false).toRegister.testBit 26 = false ∧
    (∀ k, 21 ≤ k → k ≠ 24 → k ≠ 26 →
      (length_mode.init 10 true false).toRegister.testBit k = false) :=
  ⟨by norm_num, length_mode_register_layout 10 true false (by norm_num)⟩

/-- C2: for a word count in [1, 2097151] and any two flags, reading the three
members back out of the register word of the config gives the same word count and
flags, and two such configs with the same register word are equal. -/
theorem length_mode_roundtrip (n : Nat) (f e : Bool) (h1 : 1 ≤ n) (h2 : n ≤ 2097151) :
    length_mode.ofRegister (length_mode.init n f e).toRegister = ⟨n, f, e⟩ ∧
    ∀ (n' : Nat) (f' e' : Bool), 1 ≤ n' → n' ≤ 2097151 →
      (length_mode.init n' f' e').toRegister = (length_mode.init n f e).toRegister →
      n' = n ∧ f' = f ∧ e' = e := by
  have hn : n < 2 ^ 21 := by omega
  constructor
  · rw [length_mode.init_toRegister n f e hn]
    simp only [length_mode.ofRegister, loadField, length_mode.offset_zero,
      length_mode.offset_two, length_mode.offset_four]
    cases f <;> cases e <;> simp only [Bool.toNat_false, Bool.toNat_true] <;>
      (congr 1 <;> first | omega | (simp only [decide_eq_true_eq, decide_eq_false_iff_not]; omega))
  · intro n' f' e' h1' h2' heq
    rw [length_mode.init_toRegister n f e hn,
      length_mode.init_toRegister n' f' e' (by omega)] at heq
    cases f <;> cases e <;> cases f' <;> cases e' <;>
      simp only [Bool.toNat_false, Bool.toNat_true] at heq <;>
      first
        | (refine ⟨?_, rfl, rfl⟩; omega)
        | (exfalso; omega)

/-- Witness for C2 at word count 10 with the element-size flag set. -/
theorem length_mode_roundtrip_witness :
    (1 ≤ 10 ∧ 10 ≤ 2097151) ∧
    length_mode.ofRegister (length_mode.init 10 false true).toRegister = ⟨10, false, true⟩ ∧
    ∀ (n' : Nat) (f' e' : Bool), 1 ≤ n' → n' ≤ 2097151 →
      (length_mode.init n' f' e').toRegister = (length_mode.init 10 false true).toRegister →
      n' = 10 ∧ f' = false ∧ e' = true :=
  ⟨by decide, length_mode_roundtrip 10 false true (by decide) (by decide)⟩

/-! ## The presets -/

/-- C3: for a word count `n` in [1, 2097151] each of the six presets holds the
config of the table: `cpu_copy16` is (n, false, 16-bit), `cpu_copy32` and
`cpu_copy32x8` are (n, false, 32-bit), `cpu_set16` is (n, true, 16-bit), `cpu_set32`
and `cpu_set32x8` are (n, true, 32-bit), where 16-bit is `datasize = false`. -/
theorem presets_config (n : Nat) (h1 : 1 ≤ n) (h2 : n ≤ 2097151) :
    (cpu_copy16 n).m_setting = ⟨n, false, false⟩ ∧
    (cpu_copy32 n).m_setting = ⟨n, false, true⟩ ∧
    (cpu_copy32x8 n).m_setting = ⟨n, false, true⟩ ∧
    (cpu_set16 n).m_setting = ⟨n, true, false⟩ ∧
    (cpu_set32 n).m_setting = ⟨n, true, true⟩ ∧
    (cpu_set32x8 n).m_setting = ⟨n, true, true⟩ := by
  have hn : n % 2 ^ 32 % 2 ^ 21 = n := by omega
  simp only [cpu_copy16, cpu_copy32, cpu_copy32x8, cpu_set16, cpu_set32, cpu_set32x8,
    length_mode.init, hn, and_self]

/-- Witness for C3 at word count 24. -/
theorem presets_config_witness :
    (1 ≤ 24 ∧ 24 ≤ 2097151) ∧
    (cpu_copy16 24).m_setting = ⟨24, false, false⟩ ∧
    (cpu_copy32 24).m_setting = ⟨24, false, true⟩ ∧
    (cpu_copy32x8 24).m_setting = ⟨24, false, true⟩ ∧
    (cpu_set16 24).m_setting = ⟨24, true, false⟩ ∧
    (cpu_set32 24).m_setting = ⟨24, true, true⟩ ∧
    (cpu_set32x8 24).m_setting = ⟨24, true, true⟩ :=
  ⟨by decide, presets_config 24 (by decide) (by decide)⟩

/-- C4: for a word count `n` in [1, 2097151], multiple of 8 or not, the fast presets
`cpu_copy32x8` and `cpu_set32x8` hold `word_count = n`, the word-count field (bits
0..20) of the config word they pass to the trampoline is `n` itself, and that word
is the config word of `cpu_copy32 n` and `cpu_set32 n` respectively. -/
theorem fast_presets_do_not_round (n : Nat) (h1 : 1 ≤ n) (h2 : n ≤ 2097151)
    (s d : Nat) (tr : List SwiCall) :
    (cpu_copy32x8 n).m_setting.word_count = n ∧
    (cpu_set32x8 n).m_setting.word_count = n ∧
    (cpu_copy32 n).m_setting.toRegister % 2 ^ 21 = n ∧
    (cpu_set32 n).m_setting.toRegister % 2 ^ 21 = n ∧
    ((cpu_copy32x8 n).invoke s d tr).2 =
      tr ++ [SwiCall.cpu_fast_set (memcpyToUint 4 s) (memcpyToUint 4 d)
        (cpu_copy32 n).m_setting.toRegister] ∧
    ((cpu_set32x8 n).invoke s d tr).2 =
      tr ++ [SwiCall.cpu_fast_set (memcpyToUint 4 s) (memcpyToUint 4 d)
        (cpu_set32 n).m_setting.toRegister] := by
  have hn : n % 2 ^ 32 % 2 ^ 21 = n := by omega
  have hlt : n < 2 ^ 21 := by omega
  refine ⟨?_, ?_, ?_, ?_, rfl, rfl⟩
  · simp only [cpu_copy32x8, length_mode.init, hn]
  · simp only [cpu_set32x8, length_mode.init, hn]
  · simp only [cpu_copy32]
    rw [length_mode.init_toRegister n false true hlt]
    simp only [Bool.toNat_false, Bool.toNat_true]
    omega
  · simp only [cpu_set32]
    rw [length_mode.init_toRegister n true true hlt]
    simp only [Bool.toNat_true]
    omega

/-- Witness for C4 at word count 10, which is not a multiple of 8. -/
theorem fast_presets_do_not_round_witness :
    (1 ≤ 10 ∧ 10 ≤ 2097151) ∧
    (cpu_copy32x8 10).m_setting.word_count = 10 ∧
    (cpu_set32x8 10).m_setting.word_count = 10 ∧
    (cpu_copy32 10).m_setting.toRegister % 2 ^ 21 = 10 ∧
    (cpu_set32 10).m_setting.toRegister % 2 ^ 21 = 10 ∧
    ((cpu_copy32x8 10).invoke 33554432 50331648 []).2 =
      [] ++ [SwiCall.cpu_fast_set (memcpyToUint 4 33554432) (memcpyToUint 4 50331648)
        (cpu_copy32 10).m_setting.toRegister] ∧
    ((cpu_set32x8 10).invoke 33554432 50331648 []).2 =
      [] ++ [SwiCall.cpu_fast_set (memcpyToUint 4 33554432) (memcpyToUint 4 50331648)
        (cpu_set32 10).m_setting.toRegister] :=
  ⟨by decide, fast_presets_do_not_round 10 (by decide) (by decide) 33554432 50331648 []⟩

/-! ## Dispatch -/

/-- C5: one call of `invoke(s, d)` with 32-bit addresses `s` and `d` adds exactly one
trampoline call to the trace, with arguments `s`, `d` and the register word of the
builder's config; a base builder calls `cpu_set` and a fast builder `cpu_fast_set`,
so `cpu_copy16`, `cpu_copy32`, `cpu_set16`, `cpu_set32` go to the base entry point
and `cpu_copy32x8`, `cpu_set32x8` to the fast one. -/
theorem invoke_dispatch (s d : Nat) (hs : s < 2 ^ 32) (hd : d < 2 ^ 32)
    (tr : List SwiCall) :
    (∀ b : cpu_set_shared,
      (b.invoke s d tr).2 = tr ++ [SwiCall.cpu_set s d b.m_setting.toRegister]) ∧
    (∀ b : cpu_fast_set_shared,
      (b.invoke s d tr).2 = tr ++ [SwiCall.cpu_fast_set s d b.m_setting.toRegister]) ∧
    (∀ n : Nat,
      ((cpu_copy16 n).invoke s d tr).2 =
        tr ++ [SwiCall.cpu_set s d (length_mode.init n false false).toRegister] ∧
      ((cpu_copy32 n).invoke s d tr).2 =
        tr ++ [SwiCall.cpu_set s d (length_mode.init n false true).toRegister] ∧
      ((cpu_set16 n).invoke s d tr).2 =
        tr ++ [SwiCall.cpu_set s d (length_mode.init n true false).toRegister] ∧
      ((cpu_set32 n).invoke s d tr).2 =
        tr ++ [SwiCall.cpu_set s d (length_mode.init n true true).toRegister] ∧
      ((cpu_copy32x8 n).invoke s d tr).2 =
        tr ++ [SwiCall.cpu_fast_set s d (length_mode.init n false true).toRegister] ∧
      ((cpu_set32x8 n).invoke s d tr).2 =
        tr ++ [SwiCall.cpu_fast_set s d (length_mode.init n true true).toRegister]) := by
  have hb : ∀ b : cpu_set_shared,
      (b.invoke s d tr).2 = tr ++ [SwiCall.cpu_set s d b.m_setting.toRegister] := by
    intro b
    simp only [cpu_set_shared.invoke, sizeofPointer, memcpyToUint_four s hs,
      memcpyToUint_four d hd, length_mode.toRegister]
  have hf : ∀ b : cpu_fast_set_shared,
      (b.invoke s d tr).2 = tr ++ [SwiCall.cpu_fast_set s d b.m_setting.toRegister] := by
    intro b
    simp only [cpu_fast_set_shared.invoke, sizeofPointer, memcpyToUint_four s hs,
      memcpyToUint_four d hd, length_mode.toRegister]
  refine ⟨hb, hf, fun n => ⟨hb _, hb _, hb _, hb _, hf _, hf _⟩⟩

/-- Witness for C5 at the addresses 0x02000000 and 0x03000000. -/
theorem invoke_dispatch_witness :
    (33554432 < 2 ^ 32 ∧ 50331648 < 2 ^ 32) ∧
    ((cpu_copy16 24).invoke 33554432 50331648 []).2 =
      [] ++ [SwiCall.cpu_set 33554432 50331648 (length_mode.init 24 false false).toRegister] ∧
    ((cpu_set32x8 24).invoke 33554432 50331648 []).2 =
      [] ++ [SwiCall.cpu_fast_set 33554432 50331648
        (length_mode.init 24 true true).toRegister] :=
  ⟨by norm_num,
   ((invoke_dispatch 33554432 50331648 (by norm_num) (by norm_num) []).2.2 24).1,
   ((invoke_dispatch 33554432 50331648 (by norm_num) (by norm_num) []).2.2 24).2.2.2.2.2⟩

/-- C6: `invoke` returns the builder it was called on, config unchanged, so calling
`invoke(s1, d1)` and then `invoke(s2, d2)` on the result gives back the builder and
the trace of exactly two calls `(s1, d1, c)`, `(s2, d2, c)` with `c` the register
word of the builder's config; this holds for base builders (`cpu_copy16`,
`cpu_copy32`, `cpu_set16`, `cpu_set32`) and fast builders (`cpu_copy32x8`,
`cpu_set32x8`) alike. -/
theorem invoke_twice (s1 d1 s2 d2 : Nat) (h1 : s1 < 2 ^ 32 ∧ d1 < 2 ^ 32)
    (h2 : s2 < 2 ^ 32 ∧ d2 < 2 ^ 32) :
    (∀ b : cpu_set_shared,
      (b.invoke s1 d1 []).1 = b ∧
      (b.invoke s1 d1 []).1.invoke s2 d2 (b.invoke s1 d1 []).2 =
        (b, [SwiCall.cpu_set s1 d1 b.m_setting.toRegister,
             SwiCall.cpu_set s2 d2 b.m_setting.toRegister])) ∧
    (∀ b : cpu_fast_set_shared,
      (b.invoke s1 d1 []).1 = b ∧
      (b.invoke s1 d1 []).1.invoke s2 d2 (b.invoke s1 d1 []).2 =
        (b, [SwiCall.cpu_fast_set s1 d1 b.m_setting.toRegister,
             SwiCall.cpu_fast_set s2 d2 b.m_setting.toRegister])) := by
  constructor
  · intro b
    simp only [cpu_set_shared.invoke, sizeofPointer, memcpyToUint_four s1 h1.1,
      memcpyToUint_four d1 h1.2, memcpyToUint_four s2 h2.1, memcpyToUint_four d2 h2.2,
      length_mode.toRegister, List.nil_append, List.singleton_append, and_self]
  · intro b
    simp only [cpu_fast_set_shared.invoke, sizeofPointer, memcpyToUint_four s1 h1.1,
      memcpyToUint_four d1 h1.2, memcpyToUint_four s2 h2.1, memcpyToUint_four d2 h2.2,
      length_mode.toRegister, List.nil_append, List.singleton_append, and_self]

/-- Witness for C6: `cpu_set32 24` invoked on two buffer pairs. -/
theorem invoke_twice_witness :
    ((33554432 < 2 ^ 32 ∧ 50331648 < 2 ^ 32) ∧ (33554436 < 2 ^ 32 ∧ 100663296 < 2 ^ 32)) ∧
    ((cpu_set32 24).invoke 33554432 50331648 []).1.invoke 33554436 100663296
        ((cpu_set32 24).invoke 33554432 50331648 []).2 =
      (cpu_set32 24, [SwiCall.cpu_set 33554432 50331648 (cpu_set32 24).m_setting.toRegister,
        SwiCall.cpu_set 33554436 100663296 (cpu_set32 24).m_setting.toRegister]) :=
  ⟨by norm_num,
   ((invoke_twice 33554432 50331648 33554436 100663296 (by norm_num) (by norm_num)).1
      (cpu_set32 24)).2⟩

/-! ## Reset -/

/-- C7: `register_ram_reset` adds exactly one trampoline call to the trace; its
argument is an 8-bit word whose bit `k` is the `k`-th flag in declaration order
(`ewram` bit 0, `iwram` 1, `palette` 2, `vram` 3, `oam` 4, `serial_io` 5, `sound` 6,
`registers` 7), and it is zero exactly when every flag is false. -/
theorem register_ram_reset_word (flags : reset_flags) (tr : List SwiCall) :
    register_ram_reset flags tr = tr ++ [SwiCall.register_ram_reset flags.toRegister] ∧
    flags.toRegister < 2 ^ 8 ∧
    flags.toRegister.testBit 0 = flags.ewram ∧
    flags.toRegister.testBit 1 = flags.iwram ∧
    flags.toRegister.testBit 2 = flags.palette ∧
    flags.toRegister.testBit 3 = flags.vram ∧
    flags.toRegister.testBit 4 = flags.oam ∧
    flags.toRegister.testBit 5 = flags.serial_io ∧
    flags.toRegister.testBit 6 = flags.sound ∧
    flags.toRegister.testBit 7 = flags.registers ∧
    (flags.toRegister = 0 ↔
      flags = ⟨false, false, false, false, false, false, false, false⟩) := by
  refine ⟨rfl, ?_⟩
  rcases flags with ⟨f0, f1, f2, f3, f4, f5, f6, f7⟩
  cases f0 <;> cases f1 <;> cases f2 <;> cases f3 <;> cases f4 <;> cases f5 <;>
    cases f6 <;> cases f7 <;> decide

/-! ## Math wrappers -/

theorem natAbs_tmod_eq (a b : Int) : (Int.tmod a b).natAbs = a.natAbs % b.natAbs := by
  cases a <;> cases b <;> simp [Int.tmod, Int.natAbs_neg] <;> rfl

theorem uint32_convert (v : Int) : uint32.convert v = v % 2 ^ 32 := by
  simp only [IntType.convert, uint32, Bool.false_eq_true, if_false]

theorem int32_convert_word (q : Int) (h : -2 ^ 31 ≤ q ∧ q < 2 ^ 31) :
    int32.convert (wordOfInt32 q) = q := by
  simp only [IntType.convert, int32, wordOfInt32, if_true]
  omega

theorem tdiv_int32 (a b : Int) (ha : -2 ^ 31 ≤ a ∧ a < 2 ^ 31) (hb0 : b ≠ 0)
    (hov : ¬ (a = -2 ^ 31 ∧ b = -1)) :
    -2 ^ 31 ≤ Int.tdiv a b ∧ Int.tdiv a b < 2 ^ 31 := by
  have hq : (Int.tdiv a b).natAbs = a.natAbs / b.natAbs := Int.natAbs_tdiv a b
  by_cases h1 : b = 1
  · subst h1
    rw [Int.tdiv_one]
    exact ha
  by_cases h2 : b = -1
  · subst h2
    rw [Int.tdiv_neg, Int.tdiv_one]
    omega
  have hb2 : 2 ≤ b.natAbs := by omega
  have hle : a.natAbs / b.natAbs ≤ a.natAbs / 2 := Nat.div_le_div_left hb2 (by norm_num)
  omega

theorem tmod_int32 (a b : Int) (hb : -2 ^ 31 ≤ b ∧ b < 2 ^ 31) (hb0 : b ≠ 0) :
    -2 ^ 31 ≤ Int.tmod a b ∧ Int.tmod a b < 2 ^ 31 := by
  have hr : (Int.tmod a b).natAbs = a.natAbs % b.natAbs := natAbs_tmod_eq a b
  have hlt : a.natAbs % b.natAbs < b.natAbs := Nat.mod_lt _ (by omega)
  omega

theorem div_value (a b : Int) (ha : -2 ^ 31 ≤ a ∧ a < 2 ^ 31) (hb : -2 ^ 31 ≤ b ∧ b < 2 ^ 31)
    (hb0 : b ≠ 0) (hov : ¬ (a = -2 ^ 31 ∧ b = -1)) :
    div a b = (Int.tdiv a b, Int.tmod a b, (Int.tdiv a b).natAbs) := by
  have hq := tdiv_int32 a b ha hb0 hov
  have hr := tmod_int32 a b hb hb0
  simp only [div, swi.div, int32_convert_word _ hq, int32_convert_word _ hr]
  have h2 : (uint32.convert ((Int.tdiv a b).natAbs % 2 ^ 32 : Nat)).toNat =
      (Int.tdiv a b).natAbs := by
    rw [uint32_convert]
    omega
  rw [h2]

/-- C8 fails on the code for a 64-bit type: with `T` the unsigned 64-bit type and
`x = 2^32`, a value `T` holds, `bios::sqrt` passes `static_cast<uint32>( x ) = 0` to
the firmware and returns 0, while the integer square root of `2^32` is 65536. -/
theorem sqrt_of_64_bit_value :
    (IntType.mk 64 false).holds 4294967296 ∧
    static_cast_uint32 4294967296 = 0 ∧
    sqrt ⟨64, false⟩ 4294967296 = 0 ∧
    Nat.sqrt 4294967296 = 65536 := by
  refine ⟨by decide, by decide, ?_, ?_⟩
  · have h0 : static_cast_uint32 4294967296 = 0 := by decide
    simp only [sqrt, h0, swi.sqrt, Nat.zero_mod, Nat.sqrt_zero, IntType.convert]
    decide
  · have h : (4294967296 : Nat) = 65536 * 65536 := by norm_num
    rw [h, Nat.sqrt_eq]

/-- For an integral type of 8, 16 or 32 bits, signed or unsigned, and a non-negative
value `x` of it, `bios::sqrt` returns the integer square root of `x` rounded down. -/
theorem sqrt_of_at_most_32_bits (T : IntType) (x : Int)
    (hT : T.bits = 8 ∨ T.bits = 16 ∨ T.bits = 32) (hx : T.holds x) (h0 : 0 ≤ x) :
    sqrt T x = Nat.sqrt x.toNat := by
  rcases T with ⟨bits, sg⟩
  simp only [IntType.holds] at hx
  have hle : Nat.sqrt x.toNat ≤ x.toNat := Nat.sqrt_le_self _
  have hbits : bits = 8 ∨ bits = 16 ∨ bits = 32 := hT
  have hc : static_cast_uint32 x = x.toNat := by
    simp only [static_cast_uint32, uint32_convert]
    rcases hbits with h | h | h <;> subst h <;> cases sg <;> simp at hx <;> omega
  have hm : x.toNat % 2 ^ 32 = x.toNat := by
    rcases hbits with h | h | h <;> subst h <;> cases sg <;> simp at hx <;> omega
  simp only [sqrt, hc, swi.sqrt, hm, IntType.convert]
  rcases hbits with h | h | h <;> subst h <;> cases sg <;> simp at hx ⊢ <;> omega

/-- C9: for 32-bit signed `a` and `b` with `b ≠ 0`, the pair `a = -2^31`, `b = -1`
excepted, `bios::div(a, b)` is the triple of the quotient rounded toward zero, the
remainder with the sign of `a`, and the absolute value of the quotient, in that
order, the firmware returning them in `r0`, `r1`, `r2`. -/
theorem div_triple (a b : Int) (ha : -2 ^ 31 ≤ a ∧ a < 2 ^ 31)
    (hb : -2 ^ 31 ≤ b ∧ b < 2 ^ 31) (hb0 : b ≠ 0) (hov : ¬ (a = -2 ^ 31 ∧ b = -1)) :
    div a b = (Int.tdiv a b, Int.tmod a b, (Int.tdiv a b).natAbs) :=
  div_value a b ha hb hb0 hov

/-- Witness for C9: `div(7, 2) = (3, 1, 3)` and `div(-7, 2) = (-3, -1, 3)`. -/
theorem div_triple_witness :
    div 7 2 = (3, 1, 3) ∧ div (-7) 2 = (-3, -1, 3) :=
  ⟨div_triple 7 2 (by norm_num) (by norm_num) (by norm_num) (by norm_num),
   div_triple (-7) 2 (by norm_num) (by norm_num) (by norm_num) (by norm_num)⟩

/-- C10 as stated fails at `a = -1`, `b = -2^31`: the quotient `b / a = 2^31` is not a
32-bit signed value, `bios::div_arm(-1, -2^31)` is `(-2^31, 0, 2^31)` and not
`(2^31, 0, 2^31)`.  Whatever the firmware leaves in `r0`, the first component is an
`int32` and so is below `2^31`. -/
theorem div_arm_overflow_pair :
    div_arm (-1) (-2147483648) = (-2147483648, 0, 2147483648) ∧
    (Int.tdiv (-2147483648) (-1), Int.tmod (-2147483648) (-1),
      (Int.tdiv (-2147483648) (-1)).natAbs) = (2147483648, 0, 2147483648) ∧
    (∀ r0 : Nat, int32.convert r0 < 2147483648) ∧
    ¬ (∀ a b : Int, (-2 ^ 31 ≤ a ∧ a < 2 ^ 31) → (-2 ^ 31 ≤ b ∧ b < 2 ^ 31) → a ≠ 0 →
        div_arm a b = div b a ∧
        div_arm a b = (Int.tdiv b a, Int.tmod b a, (Int.tdiv b a).natAbs)) := by
  have hv : div_arm (-1) (-2147483648) = (-2147483648, 0, 2147483648) := by decide
  refine ⟨hv, by decide, ?_, ?_⟩
  · intro r0
    simp only [IntType.convert, int32, if_true]
    omega
  · intro hall
    have h := (hall (-1) (-2147483648) (by norm_num) (by norm_num) (by norm_num)).2
    rw [hv] at h
    revert h
    decide

/-- C10 (amended): for 32-bit signed `a ≠ 0` and `b`, `bios::div_arm(a, b)` is the
triple `bios::div(b, a)`, the firmware dividing its second register argument by its
first; the pair `b = -2^31`, `a = -1` excepted, this is the triple of `b / a` rounded
toward zero, `b % a` and the absolute value of `b / a`. -/
theorem div_arm_swaps (a b : Int) (ha : -2 ^ 31 ≤ a ∧ a < 2 ^ 31)
    (hb : -2 ^ 31 ≤ b ∧ b < 2 ^ 31) (ha0 : a ≠ 0) :
    div_arm a b = div b a ∧
    (¬ (b = -2 ^ 31 ∧ a = -1) →
      div_arm a b = (Int.tdiv b a, Int.tmod b a, (Int.tdiv b a).natAbs)) :=
  ⟨rfl, fun hov => div_value b a hb ha ha0 hov⟩

/-- Witness for C10: `div_arm(2, 7) = div(7, 2) = (3, 1, 3)`. -/
theorem div_arm_swaps_witness :
    div_arm 2 7 = div 7 2 ∧ div_arm 2 7 = (3, 1, 3) :=
  ⟨(div_arm_swaps 2 7 (by norm_num) (by norm_num) (by norm_num)).1,
   (div_arm_swaps 2 7 (by norm_num) (by norm_num) (by norm_num)).2 (by norm_num)⟩

/-- C11: for every 32-bit unsigned word count `n`, in range or not, the config word
of each of the six presets has its word-count field (bits 0..20) equal to
`n mod 2^21`, and the bits above bit 20 are a constant of the preset (flags and
unused bits): the preset built from `n` is the preset built from `n mod 2^21`. -/
theorem presets_truncate_word_count (n : Nat) (_hn : n < 2 ^ 32) :
    ((cpu_copy16 n).m_setting.toRegister % 2 ^ 21 = n % 2 ^ 21 ∧
      (cpu_copy16 n).m_setting.toRegister / 2 ^ 21 = 0 ∧
      cpu_copy16 n = cpu_copy16 (n % 2 ^ 21)) ∧
    ((cpu_copy32 n).m_setting.toRegister % 2 ^ 21 = n % 2 ^ 21 ∧
      (cpu_copy32 n).m_setting.toRegister / 2 ^ 21 = 32 ∧
      cpu_copy32 n = cpu_copy32 (n % 2 ^ 21)) ∧
    ((cpu_copy32x8 n).m_setting.toRegister % 2 ^ 21 = n % 2 ^ 21 ∧
      (cpu_copy32x8 n).m_setting.toRegister / 2 ^ 21 = 32 ∧
      cpu_copy32x8 n = cpu_copy32x8 (n % 2 ^ 21)) ∧
    ((cpu_set16 n).m_setting.toRegister % 2 ^ 21 = n % 2 ^ 21 ∧
      (cpu_set16 n).m_setting.toRegister / 2 ^ 21 = 8 ∧
      cpu_set16 n = cpu_set16 (n % 2 ^ 21)) ∧
    ((cpu_set32 n).m_setting.toRegister % 2 ^ 21 = n % 2 ^ 21 ∧
      (cpu_set32 n).m_setting.toRegister / 2 ^ 21 = 40 ∧
      cpu_set32 n = cpu_set32 (n % 2 ^ 21)) ∧
    ((cpu_set32x8 n).m_setting.toRegister % 2 ^ 21 = n % 2 ^ 21 ∧
      (cpu_set32x8 n).m_setting.toRegister / 2 ^ 21 = 40 ∧
      cpu_set32x8 n = cpu_set32x8 (n % 2 ^ 21)) := by
  have hm : n % 2 ^ 21 % 2 ^ 32 % 2 ^ 21 = n % 2 ^ 32 % 2 ^ 21 := by omega
  have hw : ∀ f e : Bool,
      (length_mode.init n f e).toRegister % 2 ^ 21 = n % 2 ^ 21 ∧
      (length_mode.init n f e).toRegister / 2 ^ 21 = 8 * f.toNat + 32 * e.toNat := by
    intro f e
    rw [length_mode.toRegister_eq]
    simp only [length_mode.init]
    have h1 : f.toNat ≤ 1 := Bool.toNat_le _
    have h2 : e.toNat ≤ 1 := Bool.toNat_le _
    omega
  refine ⟨⟨(hw false false).1, (hw false false).2, ?_⟩, ⟨(hw false true).1, (hw false true).2, ?_⟩,
    ⟨(hw false true).1, (hw false true).2, ?_⟩, ⟨(hw true false).1, (hw true false).2, ?_⟩,
    ⟨(hw true true).1, (hw true true).2, ?_⟩, ⟨(hw true true).1, (hw true true).2, ?_⟩⟩ <;>
    simp only [cpu_copy16, cpu_copy32, cpu_copy32x8, cpu_set16, cpu_set32, cpu_set32x8,
      length_mode.init, hm]

/-- Witness for C11 at the out-of-range word count `2^21 + 10`. -/
theorem presets_truncate_word_count_witness :
    2097162 < 2 ^ 32 ∧
    (cpu_set32 2097162).m_setting.toRegister % 2 ^ 21 = 10 ∧
    (cpu_set32 2097162).m_setting.toRegister / 2 ^ 21 = 40 ∧
    cpu_set32 2097162 = cpu_set32 10 :=
  ⟨by norm_num,
   (presets_truncate_word_count 2097162 (by norm_num)).2.2.2.2.1.1,
   (presets_truncate_word_count 2097162 (by norm_num)).2.2.2.2.1.2.1,
   (presets_truncate_word_count 2097162 (by norm_num)).2.2.2.2.1.2.2⟩

theorem sqrt_max_word : Nat.sqrt 4294967295 = 65535 :=
  (Nat.eq_sqrt.2 ⟨by norm_num, by norm_num⟩).symm

theorem swi_sqrt_lt (u : Nat) : swi.sqrt u < 65536 := by
  have hu : u % 2 ^ 32 < 65536 * 65536 := by omega
  exact Nat.sqrt_lt.2 hu

/-- C12 as stated fails for the signed 8- and 16-bit types at a negative `x`: with
`x = -1`, `static_cast<uint32>( x )` is `0xFFFFFFFF`, the firmware's square root of it
is 65535, and narrowing 65535 to the signed 8-bit or 16-bit return type gives -1, so
the result is not `≥ 0` for every type and every `x`. -/
theorem sqrt_of_negative_narrow_value :
    (IntType.mk 8 true).holds (-1) ∧
    (IntType.mk 16 true).holds (-1) ∧
    static_cast_uint32 (-1) = 4294967295 ∧
    swi.sqrt 4294967295 = 65535 ∧
    sqrt ⟨8, true⟩ (-1) = -1 ∧
    sqrt ⟨16, true⟩ (-1) = -1 ∧
    ¬ (∀ (T : IntType) (x : Int),
        (T.bits = 8 ∨ T.bits = 16 ∨ T.bits = 32 ∨ T.bits = 64) → T.holds x →
        0 ≤ sqrt T x) := by
  have hc : static_cast_uint32 (-1) = 4294967295 := by decide
  have hs : swi.sqrt 4294967295 = 65535 := by
    simp only [swi.sqrt]
    exact sqrt_max_word
  have h8 : sqrt ⟨8, true⟩ (-1) = -1 := by
    simp only [sqrt, hc, hs, IntType.convert]
    decide
  have h16 : sqrt ⟨16, true⟩ (-1) = -1 := by
    simp only [sqrt, hc, hs, IntType.convert]
    decide
  refine ⟨by decide, by decide, hc, hs, h8, h16, ?_⟩
  intro hall
  have h := hall ⟨8, true⟩ (-1) (Or.inl rfl) (by decide)
  rw [h8] at h
  revert h
  decide

/-- For an integral type of 32 or 64 bits, signed or unsigned, and any `x`, negative
ones included, the value returned by `bios::sqrt` is non-negative. -/
theorem sqrt_nonneg_of_wide (T : IntType) (x : Int) (hT : T.bits = 32 ∨ T.bits = 64) :
    0 ≤ sqrt T x := by
  rcases T with ⟨bits, sg⟩
  have hlt := swi_sqrt_lt (static_cast_uint32 x)
  have hbits : bits = 32 ∨ bits = 64 := hT
  simp only [sqrt, IntType.convert]
  rcases hbits with h | h <;> subst h <;> cases sg <;> simp <;> omega

/-- C12 (amended): for every integral type `T` of 8, 16, 32 or 64 bits, signed or
unsigned, and every `x` of type `T` that is non-negative, or of any sign when `T` has
32 or 64 bits, the value returned by `bios::sqrt`, the firmware's result for
`static_cast<uint32>( x )` narrowed to `T`, is `≥ 0`. -/
theorem sqrt_nonneg (T : IntType) (x : Int)
    (hT : T.bits = 8 ∨ T.bits = 16 ∨ T.bits = 32 ∨ T.bits = 64) (hx : T.holds x)
    (hn : 0 ≤ x ∨ T.bits = 32 ∨ T.bits = 64) : 0 ≤ sqrt T x := by
  rcases hT with h8 | h16 | h32 | h64
  · have h0 : 0 ≤ x := by
      rcases hn with h | h | h
      · exact h
      · omega
      · omega
    rw [sqrt_of_at_most_32_bits T x (Or.inl h8) hx h0]
    exact Int.natCast_nonneg _
  · have h0 : 0 ≤ x := by
      rcases hn with h | h | h
      · exact h
      · omega
      · omega
    rw [sqrt_of_at_most_32_bits T x (Or.inr (Or.inl h16)) hx h0]
    exact Int.natCast_nonneg _
  · exact sqrt_nonneg_of_wide T x (Or.inl h32)
  · exact sqrt_nonneg_of_wide T x (Or.inr h64)

/-- Witness for C12 (amended): a non-negative value of the signed 8-bit type, and a
negative value of the signed 32-bit type. -/
theorem sqrt_nonneg_witness :
    ((IntType.mk 8 true).holds 100 ∧ int32.holds (-1)) ∧
    0 ≤ sqrt ⟨8, true⟩ 100 ∧ 0 ≤ sqrt int32 (-1) :=
  ⟨by decide,
   sqrt_nonneg ⟨8, true⟩ 100 (Or.inl rfl) (by decide) (Or.inl (by decide)),
   sqrt_nonneg int32 (-1) (Or.inr (Or.inr (Or.inl rfl))) (by decide) (Or.inr (Or.inl rfl))⟩

/-- C13: for a base or a fast builder, a source `s` and a destination pointer whose
address is the 32-bit integer `d`, `invoke` with the pointer and `invoke` with the
integer `d` give the same result and trace (one call, same entry point, same three
argument words), and both forms of `operator()` give what the matching `invoke`
gives. -/
theorem invoke_forms_agree (s d : Nat) (hd : d < 2 ^ 32) (tr : List SwiCall) :
    (∀ b : cpu_set_shared,
      b.invoke s d tr = b.invoke_uintptr s d tr ∧
      b.call s d tr = b.invoke s d tr ∧
      b.call_uintptr s d tr = b.invoke_uintptr s d tr ∧
      (b.invoke_uintptr s d tr).2 =
        tr ++ [SwiCall.cpu_set (memcpyToUint 4 s) d b.m_setting.toRegister]) ∧
    (∀ b : cpu_fast_set_shared,
      b.invoke s d tr = b.invoke_uintptr s d tr ∧
      b.call s d tr = b.invoke s d tr ∧
      b.call_uintptr s d tr = b.invoke_uintptr s d tr ∧
      (b.invoke_uintptr s d tr).2 =
        tr ++ [SwiCall.cpu_fast_set (memcpyToUint 4 s) d b.m_setting.toRegister]) := by
  have hmod : d % 2 ^ 32 = d := Nat.mod_eq_of_lt hd
  constructor
  · intro b
    refine ⟨?_, rfl, rfl, ?_⟩
    · simp only [cpu_set_shared.invoke, cpu_set_shared.invoke_uintptr, hmod]
    · simp only [cpu_set_shared.invoke_uintptr, hmod, sizeofPointer, memcpyToUint_four d hd,
        length_mode.toRegister]
  · intro b
    refine ⟨?_, rfl, rfl, ?_⟩
    · simp only [cpu_fast_set_shared.invoke, cpu_fast_set_shared.invoke_uintptr, hmod]
    · simp only [cpu_fast_set_shared.invoke_uintptr, hmod, sizeofPointer,
        memcpyToUint_four d hd, length_mode.toRegister]

/-- Witness for C13: `cpu_copy16 24` and `cpu_copy32x8 24` with the destination
0x04000000 given as a pointer and as an integer. -/
theorem invoke_forms_agree_witness :
    67108864 < 2 ^ 32 ∧
    (cpu_copy16 24).invoke 33554432 67108864 [] =
      (cpu_copy16 24).invoke_uintptr 33554432 67108864 [] ∧
    (cpu_copy32x8 24).call_uintptr 33554432 67108864 [] =
      (cpu_copy32x8 24).invoke_uintptr 33554432 67108864 [] :=
  ⟨by norm_num,
   ((invoke_forms_agree 33554432 67108864 (by norm_num) []).1 (cpu_copy16 24)).1,
   ((invoke_forms_agree 33554432 67108864 (by norm_num) []).2 (cpu_copy32x8 24)).2.2.1⟩

end bios

/-! ## `mat3x2` -/

/-- C14: the product of `mat3x2` values over one element type is associative: over
every commutative ring (the integers, the integers modulo `2^w`), `(a * b) * c` and
`a * (b * c)` have the same six components, and `operator==` returns true on them. -/
theorem mat3x2_mul_assoc {T : Type} [CommRing T] [DecidableEq T] (a b c : mat3x2 T) :
    (a.mul b).mul c = a.mul (b.mul c) ∧
    mat3x2.eq ((a.mul b).mul c) (a.mul (b.mul c)) = true := by
  have h : (a.mul b).mul c = a.mul (b.mul c) := by
    simp only [mat3x2.mul, mat3x2.of6, mat3x2.mk.injEq, vec2.mk.injEq]
    refine ⟨⟨?_, ?_⟩, ⟨?_, ?_⟩, ⟨?_, ?_⟩⟩ <;> ring
  refine ⟨h, ?_⟩
  rw [h]
  simp [mat3x2.eq, vec2.eq]

/-- C15: the default-constructed `mat3x2` has `ab = (1, 0)`, `cd = (0, 1)`,
`xy = (0, 0)` and is a two-sided identity of the product: over every commutative
ring, `mat3x2() * m == m` and `m * mat3x2() == m`. -/
theorem mat3x2_identity {T : Type} [CommRing T] [DecidableEq T] (m : mat3x2 T) :
    (mat3x2.init : mat3x2 T) = ⟨⟨1, 0⟩, ⟨0, 1⟩, ⟨0, 0⟩⟩ ∧
    mat3x2.init.mul m = m ∧ m.mul mat3x2.init = m ∧
    mat3x2.eq (mat3x2.init.mul m) m = true ∧ mat3x2.eq (m.mul mat3x2.init) m = true := by
  have hl : mat3x2.init.mul m = m := by
    rcases m with ⟨⟨a, b⟩, ⟨c, d⟩, ⟨x, y⟩⟩
    simp [mat3x2.mul, mat3x2.of6, mat3x2.init, vec2.zero]
  have hr : m.mul mat3x2.init = m := by
    rcases m with ⟨⟨a, b⟩, ⟨c, d⟩, ⟨x, y⟩⟩
    simp [mat3x2.mul, mat3x2.of6, mat3x2.init, vec2.zero]
  refine ⟨rfl, hl, hr, ?_, ?_⟩
  · rw [hl]
    simp [mat3x2.eq, vec2.eq]
  · rw [hr]
    simp [mat3x2.eq, vec2.eq]

/-- C16: the product of matrices is the composition of the affine maps of
`operator*(mat3x2, vec3)`: over every commutative ring, with
`(px, py) = m2 * vec3(x, y, 1)`, the vectors `(m1 * m2) * vec3(x, y, 1)` and
`m1 * vec3(px, py, 1)` are equal, and `operator==` of `vec2` returns true on them. -/
theorem mat3x2_mul_is_composition {T : Type} [CommRing T] [DecidableEq T]
    (m1 m2 : mat3x2 T) (x y : T) :
    (m1.mul m2).mul_vec3 ⟨x, y, 1⟩ =
      m1.mul_vec3 ⟨(m2.mul_vec3 ⟨x, y, 1⟩).x, (m2.mul_vec3 ⟨x, y, 1⟩).y, 1⟩ ∧
    vec2.eq ((m1.mul m2).mul_vec3 ⟨x, y, 1⟩)
      (m1.mul_vec3 ⟨(m2.mul_vec3 ⟨x, y, 1⟩).x, (m2.mul_vec3 ⟨x, y, 1⟩).y, 1⟩) = true := by
  have h : (m1.mul m2).mul_vec3 ⟨x, y, 1⟩ =
      m1.mul_vec3 ⟨(m2.mul_vec3 ⟨x, y, 1⟩).x, (m2.mul_vec3 ⟨x, y, 1⟩).y, 1⟩ := by
    simp only [mat3x2.mul, mat3x2.of6, mat3x2.mul_vec3, vec2.mk.injEq]
    constructor <;> ring
  refine ⟨h, ?_⟩
  rw [h]
  simp [vec2.eq]

end gba
